import Mathlib

/-!
Verification of the atuio audio editor core: the chord resolver of
src/binds.rs and the editing session state machine of src/tui.rs.

Durations are embedded as natural numbers counting nanoseconds (the
resolution of Rust `Duration`); `u64` saturating arithmetic on durations
becomes truncated natural subtraction, and operations that panic in Rust
(`Duration` subtraction underflow, `ilog10` of zero) are embedded as
`Option`-valued steps returning `none`.
-/

namespace Atuio

/-- The binding tree of src/binds.rs (`Binding`): a node is either a
terminal list of actions or a chain (a nested map from chord to node).
The Rust `HashMap` is embedded as an association list with unique keys. -/
inductive Binding (K A : Type) : Type
| action : List A → Binding K A
| chain : List (K × Binding K A) → Binding K A

/-- Association-list lookup, embedding `HashMap::get` (exact equality on
the chord). -/
def lookupB {K A : Type} [DecidableEq K] : List (K × Binding K A) → K → Option (Binding K A)
| [], _ => none
| (k', b) :: rest, k => if k = k' then some b else lookupB rest k

/-- Result of one walk of the binding tree: an action leaf was reached,
the sequence fell off the tree, or the sequence is a chain in progress. -/
inductive Res (A : Type) : Type
| found : List A → Res A
| unbound : Res A
| pending : Res A

/-- The loop body of `Binds::apply` (src/binds.rs:84-99): consume the
buffered chords left to right from the given node; an action leaf returns
its list, a missing entry means unbound, and running out of chords while
still inside a chain means a pending chain in progress. -/
def resolve {K A : Type} [DecidableEq K] : List (K × Binding K A) → List K → Res A
| _, [] => Res.pending
| m, k :: rest =>
  match lookupB m k with
  | some (Binding.chain c) => resolve c rest
  | some (Binding.action acts) => Res.found acts
  | none => Res.unbound

/-- Resolver state `Binds` of src/binds.rs: the immutable binding map plus the mutable
buffer of chords typed so far. -/
structure Binds (K A : Type) where
  map : List (K × Binding K A)
  keys : List K

/-- Method `Binds::apply` (src/binds.rs:81-100): push the chord, walk the tree
over the buffered sequence; on a leaf clear the buffer and return the
list, on an unbound sequence clear the buffer and return nothing, on a
valid incomplete prefix keep the buffer and return nothing.  The Rust
method mutates `self` and returns the optional list; the embedding
returns the pair (result, updated resolver). -/
def applyB {K A : Type} [DecidableEq K] (b : Binds K A) (k : K) : Option (List A) × Binds K A :=
  match resolve b.map (b.keys ++ [k]) with
  | Res.found acts => (some acts, ⟨b.map, []⟩)
  | Res.unbound => (none, ⟨b.map, []⟩)
  | Res.pending => (none, ⟨b.map, b.keys ++ [k]⟩)

/-- Feed a chord sequence one chord at a time through `applyB`, returning
the result of the final call together with the final resolver state. -/
def runSeq {K A : Type} [DecidableEq K] (b : Binds K A) : List K → Option (List A) × Binds K A
| [] => (none, b)
| [k] => applyB b k
| k :: k' :: rest => runSeq (applyB b k).2 (k' :: rest)

/-- A chord sequence that walks from node `m` through chain entries only,
ending at node `m'` (a valid prefix path of the binding tree). -/
inductive ChainPath {K A : Type} [DecidableEq K] :
    List (K × Binding K A) → List K → List (K × Binding K A) → Prop
| nil {m} : ChainPath m [] m
| cons {m k c p m'} : lookupB m k = some (Binding.chain c) → ChainPath c p m' →
    ChainPath m (k :: p) m'

/-- A chord sequence that exactly traverses the tree from node `m` through
chains to an action leaf holding `acts`. -/
inductive TraversesTo {K A : Type} [DecidableEq K] :
    List (K × Binding K A) → List K → List A → Prop
| leaf {m k acts} : lookupB m k = some (Binding.action acts) → TraversesTo m [k] acts
| chain {m k c ks acts} : lookupB m k = some (Binding.chain c) → TraversesTo c ks acts →
    TraversesTo m (k :: ks) acts

/-- Key chords of src/binds.rs: crossterm key events.  Only the code and
the three modifiers written by `map_key` are represented; `kind` and
`state` are the constants `Press` / empty for every chord in a binding
map and for every event the TUI feeds to the resolver. -/
inductive KeyCode : Type
| char : Char → KeyCode
| enter : KeyCode
deriving DecidableEq

structure KeyEvent where
  code : KeyCode
  shift : Bool
  ctrl : Bool
  alt : Bool
deriving DecidableEq

/-- Abstract editor actions, the variants matched by `App::apply_action`
in src/tui.rs (the `Action` enum of src/config.rs extended with the
select/effect actions that the dispatcher consumes). -/
inductive Action : Type
| quit | save | play
| cursorLeft | cursorRight | cursorStart | cursorEnd
| zoomIn | zoomOut
| select | selectAll | amplify | cut | effectLeft | effectRight
deriving DecidableEq

def key (c : Char) : KeyEvent := ⟨KeyCode.char c, false, false, false⟩

/-- The nested `g` chain of the default binding map (src/config.rs). -/
def gChain : List (KeyEvent × Binding KeyEvent Action) :=
  [(key 's', Binding.action [Action.cursorStart]),
   (key 'l', Binding.action [Action.cursorEnd])]

/-- The default binding map of `Config::default` (src/config.rs). -/
def defaultBinds : List (KeyEvent × Binding KeyEvent Action) :=
  [(⟨KeyCode.char 's', true, false, false⟩, Binding.action [Action.save]),
   (key 'q', Binding.action [Action.quit]),
   (key 'h', Binding.action [Action.cursorLeft]),
   (key 'l', Binding.action [Action.cursorRight]),
   (key ' ', Binding.action [Action.play]),
   (key 'z', Binding.action [Action.zoomIn]),
   (key 'Z', Binding.action [Action.zoomOut]),
   (key 'v', Binding.action [Action.select]),
   (key 'g', Binding.chain gChain)]

/-- Structure `Selection` of src/tui.rs: two timeline offsets.  The Rust field
`end` is a reserved word in Lean and is named `stop` here. -/
structure Selection where
  start : Nat
  stop : Nat
deriving DecidableEq

/-- Method `Selection::normalize`: the pair ordered so the first element is the
earliest. -/
def Selection.normalize (s : Selection) : Nat × Nat := (min s.start s.stop, max s.start s.stop)

/-- Enum `Effect` of src/tui.rs.  The `f32` gain is embedded as a rational;
no claim depends on float rounding of the fixed ±0.1 steps. -/
inductive Effect : Type
| amplify : ℚ → Effect
deriving DecidableEq

/-- Method `Effect::increase`. -/
def Effect.increase : Effect → ℚ → Effect
| Effect.amplify amount, d => Effect.amplify (amount + d)

/-- Enum `Mode` of src/tui.rs. -/
inductive Mode : Type
| normal : Mode
| select : Selection → Mode
| effect : Selection → Effect → Mode
deriving DecidableEq

/-- Modelled from the spec: the decoded sample buffer collaborator
(rodio `SamplesBuffer` and its `total_duration`, `take_duration`,
`skip_duration` and `chain` adapters are external library code, not part
of this repository).  Per §3 of the spec the buffer is an ordered
sequence of samples plus channel count and sample rate, addressed by
duration, with positional arithmetic converting time to sample index
exactly; it is embedded as one sample slot per duration unit. -/
structure SampleBuffer where
  channels : Nat
  sample_rate : Nat
  data : List Int
deriving DecidableEq

/-- Modelled from the spec: total duration of the buffer. -/
def SampleBuffer.totalDuration (sb : SampleBuffer) : Nat := sb.data.length

/-- Modelled from the spec: the samples in [0, d). -/
def SampleBuffer.take_duration (sb : SampleBuffer) (d : Nat) : SampleBuffer :=
  ⟨sb.channels, sb.sample_rate, sb.data.take d⟩

/-- Modelled from the spec: the samples in [d, total_duration). -/
def SampleBuffer.skip_duration (sb : SampleBuffer) (d : Nat) : SampleBuffer :=
  ⟨sb.channels, sb.sample_rate, sb.data.drop d⟩

/-- Modelled from the spec: concatenation of two sample streams. -/
def SampleBuffer.chain (x y : SampleBuffer) : SampleBuffer :=
  ⟨x.channels, x.sample_rate, x.data ++ y.data⟩

/-- The session state owned by `App` in src/tui.rs.  The terminal, audio
sink, file path and resolver are external collaborators or are modelled
separately (`Binds`); the remaining fields are embedded one to one. -/
structure App where
  exit : Bool
  cursor : Nat
  playhead : Nat
  window_start : Nat
  window_end : Nat
  playing : Bool
  mode : Mode
  source : SampleBuffer
deriving DecidableEq

/-- Fuel-driven floor of log base 10, matching Rust `u128::ilog10` on
positive inputs (the zero case, a Rust panic, is checked by callers). -/
def ilog10Aux : Nat → Nat → Nat
| 0, _ => 0
| fuel + 1, n => if n < 10 then 0 else ilog10Aux fuel (n / 10) + 1

def ilog10 (n : Nat) : Nat := ilog10Aux n n

/-- Second half of `App::move_cursor_to` (src/tui.rs:121-148), after the
clamped cursor `c` and the window produced by the first slide are known:
slide the window right if the cursor passed its end, then update the
tracked selection endpoint — the code writes the new cursor into the
selection's `start` field. -/
def movFinish (a : App) (c ws we : Nat) : App :=
  let shifted := if we < c then (ws + (c - we), we + (c - we)) else (ws, we)
  { a with cursor := c, window_start := shifted.1, window_end := shifted.2,
           mode := match a.mode with
                   | Mode.select sel => Mode.select ⟨c, sel.stop⟩
                   | m => m }

/-- Method `App::move_cursor_to` (src/tui.rs:121-148): clamp the position to
[0, total_duration], slide the window left by the out-of-bounds delta if
the cursor fell below `window_start` (the Rust `window_end -= diff` is a
panicking subtraction, embedded as `none` on underflow), then finish with
the right slide and the selection update. -/
def movCursorTo (a : App) (pos : Nat) : Option App :=
  let c := min pos a.source.totalDuration
  if c < a.window_start then
    if a.window_start - c ≤ a.window_end then
      some (movFinish a c (a.window_start - (a.window_start - c))
                          (a.window_end - (a.window_start - c)))
    else none
  else
    some (movFinish a c a.window_start a.window_end)

/-- Method `App::apply_action` (src/tui.rs:150-279), one action dispatched on the
session state.  `none` embeds a Rust panic (window-length subtraction
underflow or `ilog10(0)`); the sink interaction of `Play` and the trace
logging are external effects with no bearing on the session state beyond
the `playing` flag. -/
def apply_action (a : App) : Action → Option App
| Action.quit => some { a with exit := true }
| Action.save => some a
| Action.cursorLeft => movCursorTo a (a.cursor - 10000000)
| Action.cursorRight => movCursorTo a (a.cursor + 10000000)
| Action.cursorStart => movCursorTo a 0
| Action.cursorEnd => movCursorTo a a.source.totalDuration
| Action.play => some { a with playing := !a.playing }
| Action.zoomIn =>
  if a.window_end < a.window_start then none
  else if (a.window_end - a.window_start) / 1000000 - 1 = 0 then none
  else
    let z := 10 ^ ilog10 ((a.window_end - a.window_start) / 1000000 - 1) * 1000000
    some { a with window_end := if a.window_end - z = 0 then 1000000 else a.window_end - z }
| Action.zoomOut =>
  if a.window_end < a.window_start then none
  else if (a.window_end - a.window_start) / 1000000 = 0 then none
  else some { a with window_end :=
    a.window_end + 10 ^ ilog10 ((a.window_end - a.window_start) / 1000000) * 1000000 }
| Action.select =>
  match a.mode with
  | Mode.select _ => some { a with mode := Mode.normal }
  | Mode.normal => some { a with mode := Mode.select ⟨a.cursor, a.cursor⟩ }
  | Mode.effect _ _ => some a
| Action.selectAll =>
  match a.mode with
  | Mode.select sel =>
    if sel.start = 0 ∧ a.source.totalDuration ≤ sel.stop then
      some { a with mode := Mode.normal }
    else
      (movCursorTo a a.source.totalDuration).map
        (fun a1 => { a1 with mode := Mode.select ⟨0, a.source.totalDuration⟩ })
  | _ =>
    (movCursorTo a a.source.totalDuration).map
      (fun a1 => { a1 with mode := Mode.select ⟨0, a.source.totalDuration⟩ })
| Action.amplify =>
  match a.mode with
  | Mode.select sel => some { a with mode := Mode.effect sel (Effect.amplify 1) }
  | Mode.normal => some a
  | Mode.effect _ _ => some a
| Action.cut =>
  match a.mode with
  | Mode.select sel =>
    movCursorTo
      { a with
        source := ⟨a.source.channels, a.source.sample_rate,
                   ((a.source.take_duration sel.normalize.1).chain
                     (a.source.skip_duration sel.normalize.2)).data⟩,
        mode := Mode.normal }
      sel.normalize.1
  | Mode.normal => some a
  | Mode.effect _ _ => some a
| Action.effectLeft =>
  match a.mode with
  | Mode.effect sel eff => some { a with mode := Mode.effect sel (eff.increase (-(1/10))) }
  | _ => some a
| Action.effectRight =>
  match a.mode with
  | Mode.effect sel eff => some { a with mode := Mode.effect sel (eff.increase (1/10)) }
  | _ => some a

/-! ## Concrete session states used to evaluate the claims -/

/-- A small buffer: one channel, ten samples, total duration 10 units. -/
def baseBuf : SampleBuffer := ⟨1, 1, [1, 2, 3, 4, 5, 6, 7, 8, 9, 10]⟩

/-- A session in Effect mode over selection (0,3). -/
def appE : App := ⟨false, 0, 0, 0, 10, false, Mode.effect ⟨0, 3⟩ (Effect.amplify 1), baseBuf⟩

/-- A session in Select mode anchored at 0 with the cursor at 0. -/
def appS : App := ⟨false, 0, 0, 0, 10, false, Mode.select ⟨0, 0⟩, baseBuf⟩

/-- A session in Select mode over selection (2,5). -/
def appW : App := ⟨false, 0, 0, 0, 10, false, Mode.select ⟨2, 5⟩, baseBuf⟩

/-- A session in Normal mode. -/
def appN : App := ⟨false, 0, 0, 0, 10, false, Mode.normal, baseBuf⟩

/-- A session in Select mode with the full buffer span selected. -/
def appFull : App := ⟨false, 0, 0, 0, 10, false, Mode.select ⟨0, 10⟩, baseBuf⟩

/-- A session whose view window is 1 ms long. -/
def appZ1 : App := ⟨false, 0, 0, 0, 1000000, false, Mode.normal, baseBuf⟩

/-- A session whose view window is 10 ms long. -/
def appZ10 : App := ⟨false, 0, 0, 0, 10000000, false, Mode.normal, baseBuf⟩

/-- A session whose view window is 11 ms long. -/
def appZ11 : App := ⟨false, 0, 0, 0, 11000000, false, Mode.normal, baseBuf⟩

/-- A session whose view window is 20 ms long. -/
def appZ20 : App := ⟨false, 0, 0, 0, 20000000, false, Mode.normal, baseBuf⟩

/-! ## Resolver lemmas -/

lemma chainPath_resolve_append {K A : Type} [DecidableEq K]
    {m c : List (K × Binding K A)} {p : List K} (h : ChainPath m p c) :
    ∀ ks : List K, resolve m (p ++ ks) = resolve c ks := by
  induction h with
  | nil => intro ks; rfl
  | cons hl _ ih =>
    intro ks
    simp only [List.cons_append, resolve, hl]
    exact ih ks

lemma chainPath_snoc {K A : Type} [DecidableEq K]
    {m c c' : List (K × Binding K A)} {p : List K} {k : K} (h : ChainPath m p c)
    (hl : lookupB c k = some (Binding.chain c')) : ChainPath m (p ++ [k]) c' := by
  induction h with
  | nil => exact ChainPath.cons hl ChainPath.nil
  | cons hl0 _ ih => exact ChainPath.cons hl0 (ih hl)

lemma resolve_pending_chainPath {K A : Type} [DecidableEq K] :
    ∀ (m : List (K × Binding K A)) (ks : List K), resolve m ks = Res.pending →
      ∃ c, ChainPath m ks c := by
  intro m ks
  induction ks generalizing m with
  | nil => intro _; exact ⟨m, ChainPath.nil⟩
  | cons k rest ih =>
    intro h
    cases hl : lookupB m k with
    | none => simp only [resolve, hl] at h; cases h
    | some b =>
      cases b with
      | action acts => simp only [resolve, hl] at h; cases h
      | chain c =>
        simp only [resolve, hl] at h
        obtain ⟨c', hc⟩ := ih c h
        exact ⟨c', ChainPath.cons hl hc⟩

lemma applyB_pending {K A : Type} [DecidableEq K]
    {m c0 c1 : List (K × Binding K A)} {p0 : List K} {k : K}
    (h0 : ChainPath m p0 c0) (hl : lookupB c0 k = some (Binding.chain c1)) :
    applyB ⟨m, p0⟩ k = (none, ⟨m, p0 ++ [k]⟩) := by
  have hres : resolve m (p0 ++ [k]) = Res.pending := by
    rw [chainPath_resolve_append h0]
    simp only [resolve, hl]
  simp only [applyB, hres]

lemma runSeq_chainPath_gen {K A : Type} [DecidableEq K] :
    ∀ (p : List K) (m c0 c : List (K × Binding K A)) (p0 : List K),
      ChainPath m p0 c0 → ChainPath c0 p c →
      runSeq ⟨m, p0⟩ p = (none, ⟨m, p0 ++ p⟩) := by
  intro p
  induction p with
  | nil =>
    intro m c0 c p0 _ _
    simp [runSeq]
  | cons k p' ih =>
    intro m c0 c p0 h0 hp
    cases hp with
    | cons hl hp' =>
      rename_i c1
      cases p' with
      | nil =>
        exact applyB_pending h0 hl
      | cons k2 rest =>
        have happ := applyB_pending h0 hl
        simp only [runSeq, happ]
        have := ih m c1 c (p0 ++ [k]) (chainPath_snoc h0 hl) hp'
        rw [this]
        simp

lemma traversesTo_ne_nil {K A : Type} [DecidableEq K]
    {m : List (K × Binding K A)} {acts : List A} (h : TraversesTo m [] acts) : False := by
  cases h

lemma runSeq_traverses {K A : Type} [DecidableEq K] :
    ∀ (ks : List K) (m c0 : List (K × Binding K A)) (p0 : List K) (acts : List A),
      ChainPath m p0 c0 → TraversesTo c0 ks acts →
      runSeq ⟨m, p0⟩ ks = (some acts, ⟨m, []⟩) := by
  intro ks
  induction ks with
  | nil =>
    intro m c0 p0 acts _ ht
    exact absurd ht traversesTo_ne_nil
  | cons k ks' ih =>
    intro m c0 p0 acts h0 ht
    cases ht with
    | leaf hl =>
      have hres : resolve m (p0 ++ [k]) = Res.found acts := by
        rw [chainPath_resolve_append h0]
        simp only [resolve, hl]
      simp only [runSeq, applyB, hres]
    | chain hl ht' =>
      rename_i c1
      cases ks' with
      | nil => exact absurd ht' traversesTo_ne_nil
      | cons k2 rest =>
        have happ := applyB_pending h0 hl
        simp only [runSeq, happ]
        exact ih m c1 (p0 ++ [k]) acts (chainPath_snoc h0 hl) ht'

/-! ## Claims about the chord resolver -/

/-- C2: for every chord sequence fed one chord at a time that exactly
traverses the binding tree from the root to an action leaf, the final
`apply` call returns that leaf's action list in its configured order,
immediately afterwards the resolver's buffered chord state is empty, and
repeating the same sequence returns the identical list. -/
theorem c2_chain_to_leaf {K A : Type} [DecidableEq K]
    (m : List (K × Binding K A)) (ks : List K) (acts : List A)
    (h : TraversesTo m ks acts) :
    runSeq ⟨m, []⟩ ks = (some acts, ⟨m, []⟩) ∧
    (runSeq (runSeq ⟨m, []⟩ ks).2 ks).1 = some acts := by
  have h1 := runSeq_traverses ks m m [] acts ChainPath.nil h
  refine ⟨h1, ?_⟩
  rw [h1, h1]

theorem c2_witness :
    runSeq (Binds.mk defaultBinds []) [key 'g', key 'l'] =
      (some [Action.cursorEnd], ⟨defaultBinds, []⟩) ∧
    (runSeq (runSeq (Binds.mk defaultBinds []) [key 'g', key 'l']).2 [key 'g', key 'l']).1 =
      some [Action.cursorEnd] :=
  c2_chain_to_leaf defaultBinds [key 'g', key 'l'] [Action.cursorEnd]
    (TraversesTo.chain rfl (TraversesTo.leaf rfl))

/-- C3: a strict non-leaf prefix of a chain path leaves `apply` returning
`none` with the buffer equal to that prefix; after every `apply` the
buffer is empty or a valid prefix path from the root (over the unchanged
map); and a next chord that does not continue the pending chain clears
the buffer and returns `none` regardless of any top-level binding that
chord may have. -/
theorem c3_prefix_pending (K A : Type) [DecidableEq K] :
    (∀ (m c : List (K × Binding K A)) (p : List K), ChainPath m p c →
       runSeq ⟨m, []⟩ p = (none, ⟨m, p⟩)) ∧
    (∀ (b : Binds K A) (k : K),
       (applyB b k).2.map = b.map ∧
       ((applyB b k).2.keys = [] ∨ ∃ c, ChainPath b.map (applyB b k).2.keys c)) ∧
    (∀ (m c : List (K × Binding K A)) (p : List K) (k : K), ChainPath m p c →
       lookupB c k = none → applyB ⟨m, p⟩ k = (none, ⟨m, []⟩)) := by
  refine ⟨?_, ?_, ?_⟩
  · intro m c p h
    simpa using runSeq_chainPath_gen p m m c [] ChainPath.nil h
  · intro b k
    cases hres : resolve b.map (b.keys ++ [k]) with
    | found acts => simp [applyB, hres]
    | unbound => simp [applyB, hres]
    | pending =>
      refine ⟨by simp [applyB, hres], Or.inr ?_⟩
      obtain ⟨c, hc⟩ := resolve_pending_chainPath b.map (b.keys ++ [k]) hres
      exact ⟨c, by simpa [applyB, hres] using hc⟩
  · intro m c p k h hl
    have hres : resolve m (p ++ [k]) = Res.unbound := by
      rw [chainPath_resolve_append h]
      simp only [resolve, hl]
    simp only [applyB, hres]

theorem c3_witness :
    runSeq (Binds.mk defaultBinds []) [key 'g'] = (none, ⟨defaultBinds, [key 'g']⟩) ∧
    applyB (Binds.mk defaultBinds [key 'g']) (key 'h') = (none, ⟨defaultBinds, []⟩) :=
  ⟨(c3_prefix_pending KeyEvent Action).1 defaultBinds gChain [key 'g']
      (ChainPath.cons rfl ChainPath.nil),
   (c3_prefix_pending KeyEvent Action).2.2 defaultBinds gChain [key 'g'] (key 'h')
      (ChainPath.cons rfl ChainPath.nil) rfl⟩

/-! ## Cursor-motion lemmas -/

lemma movFinish_proj (a : App) (c ws we : Nat) :
    (movFinish a c ws we).cursor = c ∧
    (movFinish a c ws we).source = a.source ∧
    (movFinish a c ws we).exit = a.exit ∧
    (movFinish a c ws we).playing = a.playing ∧
    (movFinish a c ws we).playhead = a.playhead ∧
    (movFinish a c ws we).window_start = (if we < c then ws + (c - we) else ws) ∧
    (movFinish a c ws we).window_end = (if we < c then we + (c - we) else we) := by
  by_cases h : we < c <;> simp [movFinish, h]

lemma movFinish_mode_select (a : App) (c ws we : Nat) (sel : Selection)
    (h : a.mode = Mode.select sel) :
    (movFinish a c ws we).mode = Mode.select ⟨c, sel.stop⟩ := by
  simp [movFinish, h]

lemma movFinish_mode_effect (a : App) (c ws we : Nat) (sel : Selection) (eff : Effect)
    (h : a.mode = Mode.effect sel eff) :
    (movFinish a c ws we).mode = Mode.effect sel eff := by
  simp [movFinish, h]

lemma movFinish_mode_normal (a : App) (c ws we : Nat) (h : a.mode = Mode.normal) :
    (movFinish a c ws we).mode = Mode.normal := by
  simp [movFinish, h]

lemma movCursorTo_spec (a : App) (pos : Nat) (h : a.window_start ≤ a.window_end) :
    ∃ a', movCursorTo a pos = some a' ∧
      a'.cursor = min pos a.source.totalDuration ∧
      a'.source = a.source ∧ a'.exit = a.exit ∧ a'.playing = a.playing ∧
      a'.playhead = a.playhead ∧
      a'.window_end - a'.window_start = a.window_end - a.window_start ∧
      a'.window_start ≤ a'.cursor ∧ a'.cursor ≤ a'.window_end ∧
      (a'.cursor < a.window_start → a'.window_start = a'.cursor) ∧
      (a.window_end < a'.cursor → a'.window_end = a'.cursor) ∧
      (a.window_start ≤ a'.cursor → a'.cursor ≤ a.window_end →
        a'.window_start = a.window_start ∧ a'.window_end = a.window_end) ∧
      (∀ sel, a.mode = Mode.select sel → a'.mode = Mode.select ⟨a'.cursor, sel.stop⟩) ∧
      (∀ sel eff, a.mode = Mode.effect sel eff → a'.mode = Mode.effect sel eff) ∧
      (a.mode = Mode.normal → a'.mode = Mode.normal) := by
  set c := min pos a.source.totalDuration with hc
  by_cases h1 : c < a.window_start
  · have hd : a.window_start - c ≤ a.window_end := le_trans (Nat.sub_le _ _) h
    have hstep : movCursorTo a pos =
        some (movFinish a c (a.window_start - (a.window_start - c))
                            (a.window_end - (a.window_start - c))) := by
      unfold movCursorTo
      rw [← hc, if_pos h1, if_pos hd]
    obtain ⟨p1, p2, p3, p4, p5, p6, p7⟩ :=
      movFinish_proj a c (a.window_start - (a.window_start - c))
        (a.window_end - (a.window_start - c))
    have hin : ¬ (a.window_end - (a.window_start - c) < c) := by omega
    rw [if_neg hin] at p6 p7
    refine ⟨_, hstep, p1.trans hc.symm ▸ rfl, p2, p3, p4, p5, ?_⟩
    constructor
    · omega
    refine ⟨by omega, by omega, by omega, by omega, by omega, ?_, ?_, ?_⟩
    · intro sel hsel
      rw [movFinish_mode_select a c _ _ sel hsel, p1]
    · intro sel eff hsel
      exact movFinish_mode_effect a c _ _ sel eff hsel
    · intro hsel
      exact movFinish_mode_normal a c _ _ hsel
  · have hstep : movCursorTo a pos =
        some (movFinish a c a.window_start a.window_end) := by
      unfold movCursorTo
      rw [← hc, if_neg h1]
    obtain ⟨p1, p2, p3, p4, p5, p6, p7⟩ := movFinish_proj a c a.window_start a.window_end
    by_cases h2 : a.window_end < c
    · rw [if_pos h2] at p6 p7
      refine ⟨_, hstep, p1.trans hc.symm ▸ rfl, p2, p3, p4, p5, ?_⟩
      refine ⟨by omega, by omega, by omega, by omega, by omega, by omega, ?_, ?_, ?_⟩
      · intro sel hsel
        rw [movFinish_mode_select a c _ _ sel hsel, p1]
      · intro sel eff hsel
        exact movFinish_mode_effect a c _ _ sel eff hsel
      · intro hsel
        exact movFinish_mode_normal a c _ _ hsel
    · rw [if_neg h2] at p6 p7
      refine ⟨_, hstep, p1.trans hc.symm ▸ rfl, p2, p3, p4, p5, ?_⟩
      refine ⟨by omega, by omega, by omega, by omega, by omega, by omega, ?_, ?_, ?_⟩
      · intro sel hsel
        rw [movFinish_mode_select a c _ _ sel hsel, p1]
      · intro sel eff hsel
        exact movFinish_mode_effect a c _ _ sel eff hsel
      · intro hsel
        exact movFinish_mode_normal a c _ _ hsel

/-! ## Claims about cursor motion -/

/-- C8: after every cursor motion (CursorLeft, CursorRight, CursorStart,
CursorEnd) on a well-formed window, the cursor satisfies
0 ≤ cursor ≤ total_duration and window_start ≤ cursor ≤ window_end, the
latter restored by sliding the window by exactly the out-of-bounds delta
(window_start lands on the cursor when it fell below, window_end lands on
it when it passed beyond, the window is untouched otherwise), so the
window's length is unchanged by the motion. -/
theorem c8_motion_clamped_window (a : App) (act : Action)
    (hact : act = Action.cursorLeft ∨ act = Action.cursorRight ∨
            act = Action.cursorStart ∨ act = Action.cursorEnd)
    (h : a.window_start ≤ a.window_end) :
    ∃ a', apply_action a act = some a' ∧
      a'.cursor ≤ a'.source.totalDuration ∧
      a'.window_start ≤ a'.cursor ∧ a'.cursor ≤ a'.window_end ∧
      a'.window_end - a'.window_start = a.window_end - a.window_start ∧
      (a'.cursor < a.window_start → a'.window_start = a'.cursor) ∧
      (a.window_end < a'.cursor → a'.window_end = a'.cursor) ∧
      (a.window_start ≤ a'.cursor → a'.cursor ≤ a.window_end →
        a'.window_start = a.window_start ∧ a'.window_end = a.window_end) := by
  have key : ∀ pos, ∃ a', movCursorTo a pos = some a' ∧
      a'.cursor ≤ a'.source.totalDuration ∧
      a'.window_start ≤ a'.cursor ∧ a'.cursor ≤ a'.window_end ∧
      a'.window_end - a'.window_start = a.window_end - a.window_start ∧
      (a'.cursor < a.window_start → a'.window_start = a'.cursor) ∧
      (a.window_end < a'.cursor → a'.window_end = a'.cursor) ∧
      (a.window_start ≤ a'.cursor → a'.cursor ≤ a.window_end →
        a'.window_start = a.window_start ∧ a'.window_end = a.window_end) := by
    intro pos
    obtain ⟨a', h0, h1, h2, _, _, _, h6, h7, h8, h9, h10, h11, _, _, _⟩ :=
      movCursorTo_spec a pos h
    refine ⟨a', h0, ?_, h7, h8, h6, h9, h10, h11⟩
    rw [h2, h1]
    exact Nat.min_le_right _ _
  rcases hact with h4 | h4 | h4 | h4 <;> subst h4 <;>
    simpa only [apply_action] using key _

theorem c8_witness : ∃ a', apply_action appN Action.cursorRight = some a' ∧
    a'.cursor ≤ a'.source.totalDuration ∧
    a'.window_start ≤ a'.cursor ∧ a'.cursor ≤ a'.window_end ∧
    a'.window_end - a'.window_start = appN.window_end - appN.window_start ∧
    (a'.cursor < appN.window_start → a'.window_start = a'.cursor) ∧
    (appN.window_end < a'.cursor → a'.window_end = a'.cursor) ∧
    (appN.window_start ≤ a'.cursor → a'.cursor ≤ appN.window_end →
      a'.window_start = appN.window_start ∧ a'.window_end = appN.window_end) :=
  c8_motion_clamped_window appN Action.cursorRight (Or.inr (Or.inl rfl)) (by decide)

/-- C5 counterexample: in Select mode with stored selection (0,0), cursor 0
and a 10-unit buffer, CursorRight moves the cursor to 10 but the code
writes the new cursor into the selection's `start` field (src/tui.rs:145),
leaving the stored pair (10,0) — not the pair (0,10) the claim requires
(anchor kept in `start`, cursor tracked in `end`). -/
theorem c5_counterexample :
    (apply_action appS Action.cursorRight).map App.mode = some (Mode.select ⟨10, 0⟩) ∧
    Mode.select ⟨10, 0⟩ ≠ Mode.select ⟨0, 10⟩ := by
  constructor
  · decide
  · decide

/-- C5 (amended): while in Select mode, after every cursor motion the
selection's `start` field equals the new cursor position and its `end`
field (the anchor fixed when the selection began) is unchanged — the code
assigns the roles of `start` and `end` opposite to the claim. -/
theorem c5_select_motion (a : App) (sel : Selection) (act : Action)
    (hm : a.mode = Mode.select sel)
    (hact : act = Action.cursorLeft ∨ act = Action.cursorRight ∨
            act = Action.cursorStart ∨ act = Action.cursorEnd)
    (h : a.window_start ≤ a.window_end) :
    ∃ a', apply_action a act = some a' ∧
      a'.mode = Mode.select ⟨a'.cursor, sel.stop⟩ := by
  have key : ∀ pos, ∃ a', movCursorTo a pos = some a' ∧
      a'.mode = Mode.select ⟨a'.cursor, sel.stop⟩ := by
    intro pos
    obtain ⟨a', h0, _, _, _, _, _, _, _, _, _, _, _, hsel, _, _⟩ :=
      movCursorTo_spec a pos h
    exact ⟨a', h0, hsel sel hm⟩
  rcases hact with h4 | h4 | h4 | h4 <;> subst h4 <;>
    simpa only [apply_action] using key _

theorem c5_witness : ∃ a', apply_action appS Action.cursorRight = some a' ∧
    a'.mode = Mode.select ⟨a'.cursor, 0⟩ :=
  c5_select_motion appS ⟨0, 0⟩ Action.cursorRight rfl (Or.inr (Or.inl rfl)) (by decide)

/-- C10: while in Effect mode, cursor motions change only the cursor and
the view window: the mode (hence the stored selection and effect amount)
and the sample buffer are unchanged. -/
theorem c10_effect_frame (a : App) (sel : Selection) (eff : Effect) (act : Action)
    (hm : a.mode = Mode.effect sel eff)
    (hact : act = Action.cursorLeft ∨ act = Action.cursorRight ∨
            act = Action.cursorStart ∨ act = Action.cursorEnd)
    (h : a.window_start ≤ a.window_end) :
    ∃ a', apply_action a act = some a' ∧
      a'.mode = Mode.effect sel eff ∧ a'.source = a.source ∧
      a'.exit = a.exit ∧ a'.playing = a.playing := by
  have key : ∀ pos, ∃ a', movCursorTo a pos = some a' ∧
      a'.mode = Mode.effect sel eff ∧ a'.source = a.source ∧
      a'.exit = a.exit ∧ a'.playing = a.playing := by
    intro pos
    obtain ⟨a', h0, _, h2, h3, h4, _, _, _, _, _, _, _, _, heff, _⟩ :=
      movCursorTo_spec a pos h
    exact ⟨a', h0, heff sel eff hm, h2, h3, h4⟩
  rcases hact with h4 | h4 | h4 | h4 <;> subst h4 <;>
    simpa only [apply_action] using key _

theorem c10_witness : ∃ a', apply_action appE Action.cursorRight = some a' ∧
    a'.mode = Mode.effect ⟨0, 3⟩ (Effect.amplify 1) ∧ a'.source = appE.source ∧
    a'.exit = appE.exit ∧ a'.playing = appE.playing :=
  c10_effect_frame appE ⟨0, 3⟩ (Effect.amplify 1) Action.cursorRight rfl
    (Or.inr (Or.inl rfl)) (by decide)

/-! ## Claims about Cut -/

/-- C1 counterexample: in Effect mode the Cut arm of `App::apply_action`
is the silently-absorbed no-op `Mode::Effect { .. } => {}`
(src/tui.rs:263): on a concrete Effect-mode session the state is returned
unchanged and the mode is still Effect, not Normal, and the buffer is not
spliced — contradicting the claimed Effect --Cut--> Normal transition. -/
theorem c1_counterexample :
    apply_action appE Action.cut = some appE ∧ appE.mode ≠ Mode.normal := by
  constructor
  · rfl
  · decide

/-- C1 (amended): for every session state in Effect mode, dispatching Cut
is a no-op: the buffer, cursor, window and mode (still Effect with the
same selection and effect) are all unchanged.  The splice, cursor move
and return to Normal occur only when Cut is dispatched in Select mode. -/
theorem c1_cut_in_effect_noop (a : App) (sel : Selection) (eff : Effect)
    (hm : a.mode = Mode.effect sel eff) :
    apply_action a Action.cut = some a := by
  simp [apply_action, hm]

theorem c1_witness : apply_action appE Action.cut = some appE :=
  c1_cut_in_effect_noop appE ⟨0, 3⟩ (Effect.amplify 1) rfl

/-- C4: when Cut fires in Select mode with normalized bounds (s, e) inside
the buffer, the new buffer is the concatenation of the samples in [0, s)
and [e, total): the duration decreases by exactly e - s, samples outside
the removed range keep their values and relative order, channel count and
sample rate are preserved, the mode becomes Normal, the cursor lands on
s, and s = e leaves the buffer unchanged. -/
theorem c4_cut_splice (a : App) (sel : Selection)
    (hm : a.mode = Mode.select sel)
    (hwf : sel.normalize.2 ≤ a.source.totalDuration)
    (h : a.window_start ≤ a.window_end) :
    ∃ a', apply_action a Action.cut = some a' ∧
      a'.source.data = a.source.data.take sel.normalize.1 ++
        a.source.data.drop sel.normalize.2 ∧
      a'.source.channels = a.source.channels ∧
      a'.source.sample_rate = a.source.sample_rate ∧
      a'.source.totalDuration + (sel.normalize.2 - sel.normalize.1) =
        a.source.totalDuration ∧
      a'.mode = Mode.normal ∧
      a'.cursor = sel.normalize.1 ∧
      (∀ i, i < sel.normalize.1 → a'.source.data[i]? = a.source.data[i]?) ∧
      (∀ i, a'.source.data[sel.normalize.1 + i]? = a.source.data[sel.normalize.2 + i]?) ∧
      (sel.normalize.1 = sel.normalize.2 → a'.source = a.source) := by
  have hse : sel.normalize.1 ≤ sel.normalize.2 := min_le_max
  set s := sel.normalize.1 with hs
  set e := sel.normalize.2 with he
  set a1 : App :=
    { a with
      source := ⟨a.source.channels, a.source.sample_rate,
                 ((a.source.take_duration s).chain (a.source.skip_duration e)).data⟩,
      mode := Mode.normal } with ha1
  have hdata : a1.source.data = a.source.data.take s ++ a.source.data.drop e := rfl
  have hstep : apply_action a Action.cut = movCursorTo a1 s := by
    simp only [apply_action, hm, ← hs, ← he, ha1]
  have hlen : a1.source.totalDuration + (e - s) = a.source.totalDuration := by
    show (a.source.data.take s ++ a.source.data.drop e).length + (e - s) =
      a.source.data.length
    rw [List.length_append, List.length_take, List.length_drop]
    have : e ≤ a.source.data.length := hwf
    omega
  obtain ⟨a', h0, h1, h2, _, _, _, _, _, _, _, _, _, _, _, hnorm⟩ :=
    movCursorTo_spec a1 s (by simpa [ha1] using h)
  have hcur : a'.cursor = s := by
    rw [h1]
    have : s ≤ a1.source.totalDuration := by omega
    omega
  refine ⟨a', hstep.trans h0, ?_, ?_, ?_, ?_, hnorm rfl, hcur, ?_, ?_, ?_⟩
  · rw [h2]; exact hdata
  · rw [h2]
  · rw [h2]
  · rw [h2]; exact hlen
  · intro i hi
    rw [h2, hdata]
    have hsl : s ≤ a.source.data.length := le_trans hse hwf
    rw [List.getElem?_append_left (by rw [List.length_take]; omega)]
    exact List.getElem?_take_of_lt hi
  · intro i
    rw [h2, hdata]
    have hsl : s ≤ a.source.data.length := le_trans hse hwf
    have hlt : (a.source.data.take s).length = s := by rw [List.length_take]; omega
    rw [List.getElem?_append_right (by omega), hlt]
    have : s + i - s = i := by omega
    rw [this, List.getElem?_drop]
  · intro hseq
    rw [h2]
    show SampleBuffer.mk a.source.channels a.source.sample_rate
      (a.source.data.take s ++ a.source.data.drop e) = a.source
    rw [hseq, List.take_append_drop]

theorem c4_witness :
    Selection.normalize ⟨2, 5⟩ = (2, 5) ∧
    (∃ a', apply_action appW Action.cut = some a' ∧
      a'.source.data = appW.source.data.take 2 ++ appW.source.data.drop 5 ∧
      a'.source.totalDuration + 3 = appW.source.totalDuration ∧
      a'.mode = Mode.normal ∧ a'.cursor = 2) := by
  refine ⟨by decide, ?_⟩
  obtain ⟨a', h0, h1, _, _, h4, h5, h6, _⟩ :=
    c4_cut_splice appW ⟨2, 5⟩ rfl (by decide) (by decide)
  exact ⟨a', h0, h1, h4, h5, h6⟩

/-! ## Claims about SelectAll -/

/-- C6: on a well-formed session (window ordered, any stored selection
inside the buffer), SelectAll toggles: in Select mode with the full span
(0, total_duration) stored it reverts to Normal and changes nothing else;
in every other state it sets Select over the whole buffer and moves the
cursor to the buffer end, and a second SelectAll then returns to Normal —
so two consecutive dispatches from a not-fully-selected state end in
Normal mode. -/
theorem c6_select_all_toggle (a : App)
    (h : a.window_start ≤ a.window_end)
    (hwf : ∀ sel, a.mode = Mode.select sel → sel.stop ≤ a.source.totalDuration) :
    (a.mode = Mode.select ⟨0, a.source.totalDuration⟩ →
      apply_action a Action.selectAll = some { a with mode := Mode.normal }) ∧
    (a.mode ≠ Mode.select ⟨0, a.source.totalDuration⟩ →
      ∃ a', apply_action a Action.selectAll = some a' ∧
        a'.mode = Mode.select ⟨0, a.source.totalDuration⟩ ∧
        a'.cursor = a.source.totalDuration ∧ a'.source = a.source ∧
        ∃ a2, apply_action a' Action.selectAll = some a2 ∧ a2.mode = Mode.normal) := by
  constructor
  · intro hm
    simp [apply_action, hm]
  · intro hne
    have key : apply_action a Action.selectAll =
        (movCursorTo a a.source.totalDuration).map
          (fun a1 => { a1 with mode := Mode.select ⟨0, a.source.totalDuration⟩ }) →
        ∃ a', apply_action a Action.selectAll = some a' ∧
          a'.mode = Mode.select ⟨0, a.source.totalDuration⟩ ∧
          a'.cursor = a.source.totalDuration ∧ a'.source = a.source ∧
          ∃ a2, apply_action a' Action.selectAll = some a2 ∧ a2.mode = Mode.normal := by
      intro hred
      obtain ⟨a1, h0, h1, h2, _, _, _, _, _, _, _, _, _, _, _, _⟩ :=
        movCursorTo_spec a a.source.totalDuration h
      rw [Nat.min_self] at h1
      refine ⟨{ a1 with mode := Mode.select ⟨0, a.source.totalDuration⟩ }, ?_, rfl, h1, h2, ?_⟩
      · rw [hred, h0]
        rfl
      · refine ⟨{ a1 with mode := Mode.normal }, ?_, rfl⟩
        simp [apply_action, h2]
    cases hmode : a.mode with
    | normal => exact key (by simp only [apply_action, hmode])
    | effect sel eff => exact key (by simp only [apply_action, hmode])
    | select sel =>
      have hg : ¬(sel.start = 0 ∧ a.source.totalDuration ≤ sel.stop) := by
        rintro ⟨hg1, hg2⟩
        have hstop : sel.stop = a.source.totalDuration :=
          le_antisymm (hwf sel hmode) hg2
        have hsel2 : sel = ⟨0, a.source.totalDuration⟩ := by
          cases sel
          simp only [Selection.mk.injEq]
          exact ⟨hg1, hstop⟩
        exact hne (hmode.trans (by rw [hsel2]))
      refine key ?_
      simp only [apply_action, hmode]
      rw [if_neg hg]

theorem c6_witness :
    apply_action appFull Action.selectAll = some { appFull with mode := Mode.normal } ∧
    (∃ a', apply_action appN Action.selectAll = some a' ∧
      a'.mode = Mode.select ⟨0, appN.source.totalDuration⟩ ∧
      a'.cursor = appN.source.totalDuration ∧ a'.source = appN.source ∧
      ∃ a2, apply_action a' Action.selectAll = some a2 ∧ a2.mode = Mode.normal) :=
  ⟨(c6_select_all_toggle appFull (by decide)
      (by intro sel hsel; cases hsel; decide)).1 rfl,
   (c6_select_all_toggle appN (by decide)
      (by intro sel hsel; cases hsel)).2 (by decide)⟩

/-! ## Zoom lemmas and claims -/

lemma ilog10Aux_spec : ∀ (fuel n : Nat), 1 ≤ n → n ≤ fuel →
    10 ^ ilog10Aux fuel n ≤ n ∧ n < 10 ^ (ilog10Aux fuel n + 1) := by
  intro fuel
  induction fuel with
  | zero => intro n h1 h2; omega
  | succ fuel ih =>
    intro n h1 h2
    by_cases h10 : n < 10
    · simp only [ilog10Aux, h10, if_true]
      constructor
      · simpa using h1
      · simpa using h10
    · have hn10 : 10 ≤ n := by omega
      have hd1 : 1 ≤ n / 10 := (Nat.one_le_div_iff (by norm_num)).mpr hn10
      have hdf : n / 10 ≤ fuel := by
        have : n / 10 < n := Nat.div_lt_self (by omega) (by norm_num)
        omega
      obtain ⟨l, u⟩ := ih (n / 10) hd1 hdf
      simp only [ilog10Aux, h10, if_false]
      constructor
      · calc 10 ^ (ilog10Aux fuel (n / 10) + 1)
            = 10 ^ ilog10Aux fuel (n / 10) * 10 := by rw [pow_succ]
          _ ≤ n / 10 * 10 := Nat.mul_le_mul_right _ l
          _ ≤ n := Nat.div_mul_le_self n 10
      · calc n < 10 ^ (ilog10Aux fuel (n / 10) + 1) * 10 :=
              (Nat.div_lt_iff_lt_mul (by norm_num)).mp u
          _ = 10 ^ (ilog10Aux fuel (n / 10) + 1 + 1) := (pow_succ 10 _).symm

lemma ilog10_spec (n : Nat) (h : 1 ≤ n) :
    10 ^ ilog10 n ≤ n ∧ n < 10 ^ (ilog10 n + 1) :=
  ilog10Aux_spec n n h le_rfl

lemma ilog10_unique (n d : Nat) (h1 : 10 ^ d ≤ n) (h2 : n < 10 ^ (d + 1)) :
    ilog10 n = d := by
  have hn : 1 ≤ n := le_trans (Nat.one_le_pow _ _ (by norm_num)) h1
  obtain ⟨l, u⟩ := ilog10_spec n hn
  by_contra hne
  rcases Nat.lt_or_ge (ilog10 n) d with hlt | hge
  · have : 10 ^ (ilog10 n + 1) ≤ 10 ^ d := Nat.pow_le_pow_right (by norm_num) (by omega)
    omega
  · have : 10 ^ (d + 1) ≤ 10 ^ ilog10 n := Nat.pow_le_pow_right (by norm_num) (by omega)
    omega

/-- On a well-formed window at least 2 ms long, ZoomIn succeeds and moves
`window_end` down by `10 ^ ilog10(length_ms - 1)` milliseconds, leaving at
least 1 ms between the bounds (so the 1 ms floor branch is not taken). -/
lemma zoomIn_eq (a : App) (h : a.window_start ≤ a.window_end)
    (hL : 2 ≤ (a.window_end - a.window_start) / 1000000) :
    apply_action a Action.zoomIn = some { a with window_end :=
      (a.window_end -
        10 ^ ilog10 ((a.window_end - a.window_start) / 1000000 - 1) * 1000000) } ∧
    a.window_start + 1000000 ≤ a.window_end -
      10 ^ ilog10 ((a.window_end - a.window_start) / 1000000 - 1) * 1000000 := by
  have hnot : ¬ a.window_end < a.window_start := not_lt.mpr h
  set L := (a.window_end - a.window_start) / 1000000 with hLdef
  have hlow : L * 1000000 ≤ a.window_end - a.window_start := Nat.div_mul_le_self _ _
  have hz : 10 ^ ilog10 (L - 1) ≤ L - 1 := (ilog10_spec (L - 1) (by omega)).1
  set pd := 10 ^ ilog10 (L - 1) with hpd
  have hwend : a.window_start + 1000000 ≤ a.window_end - pd * 1000000 := by omega
  refine ⟨?_, hwend⟩
  have hB : ¬(L - 1 = 0) := by omega
  have hC : ¬(a.window_end - pd * 1000000 = 0) := by omega
  simp only [apply_action, if_neg hnot, ← hLdef, if_neg hB, ← hpd, if_neg hC]

/-- C7 counterexample: on a window exactly 1 ms long (here (0 ms, 1 ms)),
`ZoomIn` computes `len_millis.saturating_sub(1) = 0` and then calls
`u128::ilog10` on 0, which panics — the dispatch does not terminate
without failure, contradicting the claim (which instead predicts a 1 ms
step floored at a 1 ms window). -/
theorem c7_counterexample : apply_action appZ1 Action.zoomIn = none := by decide

/-- C7 (amended): on a well-formed window, ZoomIn panics (ilog10 of zero)
when the pre-zoom length is below 2 ms; when the length is at least 2 ms
it terminates, subtracts from window_end a step of
`10 ^ floor(log10(length_ms - 1))` milliseconds — the order of magnitude
of length_ms minus one, not of length_ms — and yields a window whose
length is at least 1 ms, never zero or negative. -/
theorem c7_zoom_in_step (a : App) (h : a.window_start ≤ a.window_end) :
    ((a.window_end - a.window_start) / 1000000 ≤ 1 →
      apply_action a Action.zoomIn = none) ∧
    (2 ≤ (a.window_end - a.window_start) / 1000000 →
      ∃ a', apply_action a Action.zoomIn = some a' ∧
        a'.window_start = a.window_start ∧
        a'.window_end = a.window_end -
          10 ^ ilog10 ((a.window_end - a.window_start) / 1000000 - 1) * 1000000 ∧
        1000000 ≤ a'.window_end - a'.window_start) := by
  have hnot : ¬ a.window_end < a.window_start := not_lt.mpr h
  constructor
  · intro hL
    simp only [apply_action, if_neg hnot]
    rw [if_pos (by omega)]
  · intro hL
    obtain ⟨hstep, hwend⟩ := zoomIn_eq a h hL
    refine ⟨_, hstep, rfl, rfl, ?_⟩
    show 1000000 ≤ a.window_end - 10 ^ ilog10 ((a.window_end - a.window_start) / 1000000 - 1)
      * 1000000 - a.window_start
    omega

theorem c7_witness :
    2 ≤ (appZ10.window_end - appZ10.window_start) / 1000000 ∧
    (∃ a', apply_action appZ10 Action.zoomIn = some a' ∧
      a'.window_start = appZ10.window_start ∧
      a'.window_end = appZ10.window_end -
        10 ^ ilog10 ((appZ10.window_end - appZ10.window_start) / 1000000 - 1) * 1000000 ∧
      1000000 ≤ a'.window_end - a'.window_start) :=
  ⟨by decide, (c7_zoom_in_step appZ10 (by decide)).2 (by decide)⟩

/-- C9 counterexample: from the window (0 ms, 11 ms), ZoomIn uses the
step `10 ^ ilog10(10) = 10` ms giving (0 ms, 1 ms), but ZoomOut then uses
`10 ^ ilog10(1) = 1` ms giving (0 ms, 2 ms) — the round trip does not
restore the original window bounds. -/
theorem c9_counterexample :
    (apply_action appZ11 Action.zoomIn).bind
      (fun a1 => apply_action a1 Action.zoomOut) ≠ some appZ11 := by
  decide

/-- C9 (amended): ZoomIn followed by ZoomOut restores the original window
exactly when the two magnitude-derived steps agree, namely when the
pre-zoom length in ms, L, satisfies 2 ≤ L and 2 * 10 ^ ilog10(L - 1) ≤ L;
outside that range (e.g. L = 11, see the counterexample) the round trip
lands on a different window. -/
theorem c9_zoom_roundtrip (a : App) (h : a.window_start ≤ a.window_end)
    (hL : 2 ≤ (a.window_end - a.window_start) / 1000000)
    (hsym : 2 * 10 ^ ilog10 ((a.window_end - a.window_start) / 1000000 - 1) ≤
      (a.window_end - a.window_start) / 1000000) :
    (apply_action a Action.zoomIn).bind (fun a1 => apply_action a1 Action.zoomOut) =
      some a := by
  obtain ⟨hstep, hwend⟩ := zoomIn_eq a h hL
  rw [hstep]
  show apply_action { a with window_end := _ } Action.zoomOut = some a
  set L := (a.window_end - a.window_start) / 1000000 with hLdef
  have hlow : L * 1000000 ≤ a.window_end - a.window_start := Nat.div_mul_le_self _ _
  set pd := 10 ^ ilog10 (L - 1) with hpd
  have hpd1 : 1 ≤ pd := hpd ▸ Nat.one_le_pow _ _ (by norm_num)
  have hz : 10 ^ ilog10 (L - 1) ≤ L - 1 := (ilog10_spec (L - 1) (by omega)).1
  have hu : L - 1 < 10 ^ (ilog10 (L - 1) + 1) := (ilog10_spec (L - 1) (by omega)).2
  have hps : 10 ^ (ilog10 (L - 1) + 1) = pd * 10 := by rw [hpd, pow_succ]
  have hL1 : (a.window_end - pd * 1000000 - a.window_start) / 1000000 = L - pd := by
    omega
  have hd2 : ilog10 (L - pd) = ilog10 (L - 1) := by
    apply ilog10_unique
    · rw [← hpd]; omega
    · rw [hps]; omega
  have hnot1 : ¬ a.window_end - pd * 1000000 < a.window_start := by omega
  have hne0 : ¬((a.window_end - pd * 1000000 - a.window_start) / 1000000 = 0) := by
    rw [hL1]; omega
  simp only [apply_action, if_neg hnot1, if_neg hne0, hL1, hd2, ← hpd]
  have hfin : a.window_end - pd * 1000000 + pd * 1000000 = a.window_end := by omega
  rw [hfin, if_neg (show ¬(L - pd = 0) by omega)]

theorem c9_witness :
    (apply_action appZ20 Action.zoomIn).bind
      (fun a1 => apply_action a1 Action.zoomOut) = some appZ20 :=
  c9_zoom_roundtrip appZ20 (by decide) (by decide) (by decide)

end Atuio
